import Mathlib

/-!
# Verification of the Employee Timesheet Tracker core (`app2.py`)

A shallow embedding of the computational core of the timesheet application:
date-table generation (`init_timesheet`), the daily-total recomputation
(`calculate_totals`), the positional merge of edited columns, the weekly and
monthly `groupby` summaries, the four derived metrics, and the CSV export.

Dates are modelled as day ordinals (days since 1970-01-01, `ℤ`); the civil
calendar conversions follow the standard Gregorian algorithms, matching the
values pandas derives (`strftime("%A")`, `dt.isocalendar().week`,
`dt.month_name()`).  Numeric cells are modelled as exact rationals `ℚ`;
`round2` is round-half-to-even at 2 decimal places, matching `DataFrame.round`.
-/

attribute [local semireducible] Rat.add Rat.mul Rat.inv Rat.sub

namespace Timesheet

/-! ## String ordering

Python compares strings lexicographically by Unicode code point; `groupby`
sorts its string keys with that order.  The Lean core/Batteries `String.lt`
is definitionally opaque here, so the comparison is spelled out on the
character lists. -/

/-- Lexicographic strict comparison of character lists by code point. -/
def charListLt : List Char → List Char → Bool
  | [], [] => false
  | [], _ :: _ => true
  | _ :: _, [] => false
  | a :: as, b :: bs =>
    if a.toNat < b.toNat then true
    else if b.toNat < a.toNat then false
    else charListLt as bs

/-- Python string `<`: lexicographic by code point. -/
def strLt (a b : String) : Bool := charListLt a.data b.data

/-- Python string `<=` (total order companion of `strLt`). -/
def strLe (a b : String) : Bool := !(strLt b a)

/-! ## Calendar arithmetic -/

/-- Civil date `(year, month, day)` from a day ordinal (days since 1970-01-01),
proleptic Gregorian calendar.  The ordinal is shifted to days since 0000-03-01
and decomposed hierarchically: 400-year era, century within the era (the
fourth century is one day longer), 4-year block within the century (the last
block of a short century is one day shorter), March-based year within the
block (the fourth year of a long block is the leap one), and day of the
March-based year, which the standard `(5 * doy + 2) / 153` formula turns into
month and day. -/
def civilFromDays (z0 : ℤ) : ℤ × ℤ × ℤ :=
  let z := z0 + 719468
  let era := z / 146097
  let doe := z - era * 146097
  let c := if 3 * 36524 ≤ doe then 3 else doe / 36524
  let dc := doe - 36524 * c
  let q := dc / 1461
  let dq := dc - 1461 * q
  let yq := if 1095 ≤ dq then 3 else dq / 365
  let doy := dq - 365 * yq
  let yoe := c * 100 + q * 4 + yq
  let y := yoe + era * 400
  let mp := (5 * doy + 2) / 153
  let d := doy - (153 * mp + 2) / 5 + 1
  let m := mp + (if mp < 10 then 3 else -9)
  (y + (if m ≤ 2 then 1 else 0), m, d)

/-- Day ordinal (days since 1970-01-01) of a civil `(year, month, day)`. -/
def daysFromCivil (y m d : ℤ) : ℤ :=
  let y' := y - (if m ≤ 2 then 1 else 0)
  let era := y' / 400
  let yoe := y' - era * 400
  let doy := (153 * (m + (if 2 < m then -3 else 9)) + 2) / 5 + d - 1
  let doe := yoe * 365 + yoe / 4 - yoe / 100 + doy
  era * 146097 + doe - 719468

def dayNames : List String :=
  ["Sunday", "Monday", "Tuesday", "Wednesday", "Thursday", "Friday", "Saturday"]

def monthNames : List String :=
  ["January", "February", "March", "April", "May", "June",
   "July", "August", "September", "October", "November", "December"]

/-- Full weekday name of a day ordinal (`strftime("%A")`); ordinal 0
(1970-01-01) is a Thursday. -/
def weekdayName (z : ℤ) : String := dayNames.getD ((z + 4).emod 7).toNat ""

/-- Full month name of a day ordinal (`dt.month_name()`). -/
def monthName (z : ℤ) : String :=
  monthNames.getD ((civilFromDays z).2.1 - 1).toNat ""

/-- ISO day-of-week, Monday = 1 .. Sunday = 7. -/
def isoDow (z : ℤ) : ℤ := (z + 3).emod 7 + 1

/-- ISO-8601 week number of a day ordinal (`dt.isocalendar().week`): the week
number of the Thursday of the date's week, counted within that Thursday's
calendar year. -/
def isoWeek (z : ℤ) : ℤ :=
  let th := z + 4 - isoDow z
  let y := (civilFromDays th).1
  (th - daysFromCivil y 1 1) / 7 + 1

/-! ## Data model

One `Row` per calendar day, with the nine columns of the DataFrame built by
`init_timesheet`: Date, Day, Hours Worked, Hourly Rate, Daily Total,
Tasks Completed, Week, Month, Employee Name. -/

structure Row where
  date : ℤ
  day : String
  hoursWorked : ℚ
  hourlyRate : ℚ
  dailyTotal : ℚ
  tasksCompleted : String
  week : ℤ
  month : String
  employeeName : String
deriving DecidableEq, Repr

/-- The day ordinals produced by `pd.date_range(start, end, freq="D")`:
every day from `s` to `e` inclusive, empty when `e < s`. -/
def dateRange (s e : ℤ) : List ℤ :=
  if s ≤ e then (List.range (e - s + 1).toNat).map (fun i : ℕ => s + (i : ℤ))
  else []

/-- `init_timesheet(start, end, employee_name)`: one zero-initialised row per
day of the range, with the derived Day / Week / Month columns and the constant
Employee Name column. -/
def init_timesheet (s e : ℤ) (employee : String) : List Row :=
  (dateRange s e).map fun d =>
    { date := d
      day := weekdayName d
      hoursWorked := 0
      hourlyRate := 0
      dailyTotal := 0
      tasksCompleted := ""
      week := isoWeek d
      month := monthName d
      employeeName := employee }

/-- `calculate_totals(df)`: `df["Daily Total"] = df["Hours Worked"] * df["Hourly Rate"]`. -/
def calculate_totals (df : List Row) : List Row :=
  df.map fun r => { r with dailyTotal := r.hoursWorked * r.hourlyRate }

/-- The merge of edited columns back into the table
(`df.loc[:, "Hours Worked"] = edited_df["Hours Worked"]` etc.): positional
assignment of the three editable columns, row by row. -/
def applyEdits (df : List Row) (hours rates : List ℚ) (notes : List String) :
    List Row :=
  (df.zip (hours.zip (rates.zip notes))).map fun p =>
    { p.1 with
      hoursWorked := p.2.1
      hourlyRate := p.2.2.1
      tasksCompleted := p.2.2.2 }

/-! ## Summaries and derived metrics -/

/-- Floor of a rational as an integer (`x.den` is positive, so flooring
`x.num / x.den` is integer floor division). -/
def ratFloor (x : ℚ) : ℤ := Int.fdiv x.num x.den

/-- Round-half-to-even of a rational, the tie-breaking rule of
`numpy.round`. -/
def roundHalfEven (x : ℚ) : ℤ :=
  let n := ratFloor x
  let f := x - n
  if f < 1/2 then n
  else if 1/2 < f then n + 1
  else if n % 2 = 0 then n else n + 1

/-- Rounding to 2 decimal places (`DataFrame.round(2)`). -/
def round2 (q : ℚ) : ℚ := (roundHalfEven (q * 100) : ℚ) / 100

def sumHours (rows : List Row) : ℚ := (rows.map Row.hoursWorked).sum

def sumTotals (rows : List Row) : ℚ := (rows.map Row.dailyTotal).sum

/-- The distinct "Week" keys in ascending order: `groupby("Week")` sorts its
integer group keys ascending. -/
def weekKeys (rows : List Row) : List ℤ :=
  List.insertionSort (· ≤ ·) (rows.map Row.week).dedup

/-- `df.groupby("Week").agg({"Hours Worked": "sum", "Daily Total": "sum"}).round(2)`:
one entry per distinct week number, keys ascending, each value the 2-dp-rounded
column sum over the rows of that group. -/
def summarize_by_week (rows : List Row) : List (ℤ × ℚ × ℚ) :=
  (weekKeys rows).map fun w =>
    (w, round2 (sumHours (rows.filter fun r => r.week = w)),
        round2 (sumTotals (rows.filter fun r => r.week = w)))

/-- The distinct "Month" keys in ascending lexicographic (alphabetical) order:
`groupby("Month")` sorts its string group keys with Python `<`, which compares
strings by code point. -/
def monthKeys (rows : List Row) : List String :=
  List.insertionSort (fun a b => strLe a b = true) (rows.map Row.month).dedup

/-- `df.groupby("Month").agg({"Hours Worked": "sum", "Daily Total": "sum"}).round(2)`. -/
def summarize_by_month (rows : List Row) : List (String × ℚ × ℚ) :=
  (monthKeys rows).map fun m =>
    (m, round2 (sumHours (rows.filter fun r => r.month = m)),
        round2 (sumTotals (rows.filter fun r => r.month = m)))

/-- `df["Hours Worked"].sum()`. -/
def total_hours (rows : List Row) : ℚ := sumHours rows

/-- `df["Daily Total"].sum()`. -/
def total_earnings (rows : List Row) : ℚ := sumTotals rows

/-- `df[df["Hourly Rate"] > 0]["Hourly Rate"].mean() if len(df[df["Hourly Rate"] > 0]) > 0 else 0`. -/
def avg_hourly_rate (rows : List Row) : ℚ :=
  let pos := rows.filter fun r => 0 < r.hourlyRate
  if pos.length = 0 then 0
  else (pos.map Row.hourlyRate).sum / pos.length

/-- `len(df[df["Hours Worked"] > 0])`. -/
def days_worked (rows : List Row) : ℕ :=
  (rows.filter fun r => 0 < r.hoursWorked).length

/-- The concrete scenario of the spec: range 2025-01-01 to 2025-01-03 for
employee "Alex", edited to hours (8, 6, 0) and rates (20, 25, 0), then
recomputed. -/
def scenarioTs : List Row :=
  calculate_totals (applyEdits
    (init_timesheet (daysFromCivil 2025 1 1) (daysFromCivil 2025 1 3) "Alex")
    [8, 6, 0] [20, 25, 0] ["", "", ""])

/-! ## CSV export (`df.to_csv(index=False)`)

pandas renders the DataFrame as comma-separated lines, each terminated by a
newline, quoting a field only when it contains a comma, a quote or a line
break (QUOTE_MINIMAL) and doubling interior quotes.  Dates print as
`YYYY-MM-DD` (all times are midnight), float64 cells by their shortest exact
decimal representation (always with a decimal point), int64 cells in plain
decimal. -/

/-- The decimal digit character for `d < 10`. -/
def digitChar (d : ℕ) : Char := Char.ofNat (48 + d)

/-- The numeric value of a decimal digit character. -/
def charToDigit (c : Char) : ℕ := c.toNat - 48

def isDigitChar (c : Char) : Bool := decide (48 ≤ c.toNat ∧ c.toNat ≤ 57)

/-- Big-endian decimal digits of `n`; any fuel above the digit count gives
the digits. -/
def natDigitsAux : ℕ → ℕ → List Char
  | 0, _ => []
  | fuel + 1, n =>
    if n < 10 then [digitChar n]
    else natDigitsAux fuel (n / 10) ++ [digitChar (n % 10)]

def natDigits (n : ℕ) : List Char := natDigitsAux (n + 1) n

/-- Value of a digit string (most significant digit first). -/
def parseNat (l : List Char) : ℕ :=
  l.foldl (fun acc c => 10 * acc + charToDigit c) 0

def pow10 (k : ℕ) : ℕ := 10 ^ k

/-- Fuel-bounded search for the least `k ≥ k0` with `q * 10 ^ k` integral. -/
def decExpAux : ℕ → ℚ → ℕ → Option ℕ
  | 0, _, _ => none
  | fuel + 1, q, k =>
    if (q * ((pow10 k : ℕ) : ℚ)).den = 1 then some k
    else decExpAux fuel q (k + 1)

/-- The number of digits after the point in the shortest exact decimal
rendering of `q` (at most 40), when one exists. -/
def decExp (q : ℚ) : Option ℕ := decExpAux 40 q 0

def padZeros (k : ℕ) (l : List Char) : List Char :=
  List.replicate (k - l.length) '0' ++ l

/-- Decimal rendering of a nonnegative terminating-decimal float64 value, as
pandas writes it to CSV: integer part, point, then the minimal number of
fractional digits (at least one). -/
def renderQ (q : ℚ) : List Char :=
  match decExp q with
  | none => []
  | some 0 => natDigits q.num.toNat ++ ['.', '0']
  | some (k + 1) =>
    let n := (q * ((pow10 (k + 1) : ℕ) : ℚ)).num.toNat
    natDigits (n / pow10 (k + 1)) ++
      '.' :: padZeros (k + 1) (natDigits (n % pow10 (k + 1)))

/-- Split at the first occurrence of `sep`, when present. -/
def splitOn1 (sep : Char) : List Char → Option (List Char × List Char)
  | [] => none
  | c :: cs =>
    if c = sep then some ([], cs)
    else
      match splitOn1 sep cs with
      | none => none
      | some (a, b) => some (c :: a, b)

/-- Parse a decimal rendering `intpart.fracpart` back into a rational. -/
def parseQ (l : List Char) : Option ℚ :=
  match splitOn1 '.' l with
  | none => none
  | some (ip, fp) =>
    if ip ≠ [] ∧ fp ≠ [] ∧ ip.all isDigitChar ∧ fp.all isDigitChar then
      some ((parseNat ip : ℚ) + (parseNat fp : ℚ) / ((pow10 fp.length : ℕ) : ℚ))
    else none

/-- `YYYY-MM-DD` rendering of a day ordinal (as `%Y-%m-%d`, zero-padded). -/
def renderDate (z : ℤ) : List Char :=
  padZeros 4 (natDigits (civilFromDays z).1.toNat) ++
    '-' :: (padZeros 2 (natDigits (civilFromDays z).2.1.toNat) ++
      '-' :: padZeros 2 (natDigits (civilFromDays z).2.2.toNat))

/-- Parse `YYYY-MM-DD` back into a day ordinal. -/
def parseDate (l : List Char) : Option ℤ :=
  match splitOn1 '-' l with
  | none => none
  | some (ys, rest) =>
    match splitOn1 '-' rest with
    | none => none
    | some (ms, ds) =>
      if ys ≠ [] ∧ ms ≠ [] ∧ ds ≠ [] ∧ ys.all isDigitChar ∧
          ms.all isDigitChar ∧ ds.all isDigitChar then
        some (daysFromCivil (parseNat ys) (parseNat ms) (parseNat ds))
      else none

/-- Plain decimal rendering of a nonnegative int64 value. -/
def renderInt (z : ℤ) : List Char :=
  if z < 0 then '-' :: natDigits (-z).toNat else natDigits z.toNat

/-- The nine cells of one CSV data row, in the DataFrame's column order. -/
def rowFields (r : Row) : List String :=
  [(renderDate r.date).asString, r.day, (renderQ r.hoursWorked).asString,
   (renderQ r.hourlyRate).asString, (renderQ r.dailyTotal).asString,
   r.tasksCompleted, (renderInt r.week).asString, r.month, r.employeeName]

/-- The header row of the CSV export. -/
def csvHeader : List String :=
  ["Date", "Day", "Hours Worked", "Hourly Rate", "Daily Total",
   "Tasks Completed", "Week", "Month", "Employee Name"]

/-- QUOTE_MINIMAL: a field is quoted iff it contains a separator, a quote or
a line break. -/
def isCsvSpecial (c : Char) : Bool :=
  decide (c = ',' ∨ c = '"' ∨ c = '\n' ∨ c = '\r')

/-- Double every quote character (the CSV escape inside quoted fields). -/
def escapeQuotes : List Char → List Char
  | [] => []
  | c :: cs =>
    if c = '"' then '"' :: '"' :: escapeQuotes cs else c :: escapeQuotes cs

def encodeField (s : String) : List Char :=
  if s.data.any isCsvSpecial then '"' :: (escapeQuotes s.data ++ ['"'])
  else s.data

def encodeLine : List String → List Char
  | [] => []
  | [f] => encodeField f
  | f :: fs => encodeField f ++ ',' :: encodeLine fs

/-- `df.to_csv(index=False)`: the header line then one line per row, each
terminated by a newline. -/
def export_csv (rows : List Row) : String :=
  (((csvHeader :: rows.map rowFields).map fun fs =>
      encodeLine fs ++ ['\n']).flatten).asString

mutual

/-- The CSV reading state machine, outside quotes: `facc` holds the current
field (reversed), `racc` the current row's fields (reversed), `rows` the
finished rows (reversed). -/
def csvUnq : List Char → List Char → List String → List (List String) →
    List (List String)
  | [], facc, racc, rows =>
    if facc = [] ∧ racc = [] then rows.reverse
    else ((facc.reverse.asString :: racc).reverse :: rows).reverse
  | c :: cs, facc, racc, rows =>
    if c = ',' then csvUnq cs [] (facc.reverse.asString :: racc) rows
    else if c = '\n' then
      csvUnq cs [] [] ((facc.reverse.asString :: racc).reverse :: rows)
    else if c = '"' ∧ facc = [] then csvQuoted cs [] racc rows
    else csvUnq cs (c :: facc) racc rows

/-- The CSV reading state machine, inside a quoted field: a doubled quote is
a literal quote, a lone quote closes the field. -/
def csvQuoted : List Char → List Char → List String → List (List String) →
    List (List String)
  | [], facc, racc, rows =>
    ((facc.reverse.asString :: racc).reverse :: rows).reverse
  | c :: cs, facc, racc, rows =>
    if c = '"' then
      match cs with
      | [] => ((facc.reverse.asString :: racc).reverse :: rows).reverse
      | c2 :: cs2 =>
        if c2 = '"' then csvQuoted cs2 ('"' :: facc) racc rows
        else csvUnq (c2 :: cs2) facc racc rows
    else csvQuoted cs (c :: facc) racc rows

end

/-- Parse a CSV text into its rows of fields. -/
def csvParse (s : String) : List (List String) := csvUnq s.data [] [] []

/-- Recover the `(date, weekday_name, hours_worked, hourly_rate, daily_total,
tasks_note)` tuple from the nine parsed cells of a data row. -/
def parseRowTuple (fs : List String) :
    Option (ℤ × String × ℚ × ℚ × ℚ × String) :=
  match fs with
  | [dt, day, h, rt, tot, note, _w, _m, _e] =>
    match parseDate dt.data, parseQ h.data, parseQ rt.data, parseQ tot.data with
    | some z, some hh, some rr, some tt => some (z, day, hh, rr, tt, note)
    | _, _, _, _ => none
  | _ => none

/-- The numeric cells of the row are nonnegative terminating decimals and the
date is not before the epoch: exactly the regime in which float64 CSV
formatting is an exact decimal rendering. -/
def RowRenderable (r : Row) : Prop :=
  0 ≤ r.date ∧ 0 ≤ r.hoursWorked ∧ 0 ≤ r.hourlyRate ∧ 0 ≤ r.dailyTotal ∧
    (decExp r.hoursWorked).isSome ∧ (decExp r.hourlyRate).isSome ∧
    (decExp r.dailyTotal).isSome

instance (r : Row) : Decidable (RowRenderable r) := by
  unfold RowRenderable
  infer_instance

/-! ## Concrete tables used as test inputs -/

/-- A 12-day range crossing from January 2025 into February 2025. -/
def janFebTs : List Row :=
  init_timesheet (daysFromCivil 2025 1 25) (daysFromCivil 2025 2 5) "Alex"

/-- The month names of a table in order of first occurrence (the ordering the
spec asserts for the monthly summary), for comparison with the ordering the
code produces. -/
def firstOccurrenceMonthKeys (rows : List Row) : List String :=
  (rows.map Row.month).foldl (fun acc m => if m ∈ acc then acc else acc ++ [m])
    []

/-- Two days in consecutive ISO weeks (Sun 2025-01-05 in week 1,
Mon 2025-01-06 in week 2), each with hours 0.5 at rate 0.25, so each week
group's earnings sum is 0.125. -/
def roundingTs : List Row :=
  calculate_totals (applyEdits
    (init_timesheet (daysFromCivil 2025 1 5) (daysFromCivil 2025 1 6) "A")
    [1/2, 1/2] [1/4, 1/4] ["", ""])

/-- Two single-day rows one year apart that share ISO week number 5
(Mon 2025-01-27 and Mon 2026-01-26). -/
def crossYearTs : List Row :=
  init_timesheet (daysFromCivil 2025 1 27) (daysFromCivil 2025 1 27) "A" ++
    init_timesheet (daysFromCivil 2026 1 26) (daysFromCivil 2026 1 26) "A"

/-- A two-day table with valid entries: hours (8, 6), rates (20, 25). -/
def c6Prior : List Row :=
  calculate_totals (applyEdits
    (init_timesheet (daysFromCivil 2025 1 1) (daysFromCivil 2025 1 2) "A")
    [8, 6] [20, 25] ["", ""])

/-- `c6Prior` after the presentation layer supplies hours 30 (out of the
0–24 bound) for the first row and the core re-merges and recomputes. -/
def c6After : List Row :=
  calculate_totals (applyEdits c6Prior [30, 6] [20, 25] ["", ""])

/-! ## Basic facts used by several theorems -/

theorem dateRange_of_le {s e : ℤ} (h : s ≤ e) :
    dateRange s e
      = (List.range ((e - s).toNat + 1)).map (fun i : ℕ => s + (i : ℤ)) := by
  have h1 : (e - s + 1).toNat = (e - s).toNat + 1 := by omega
  simp [dateRange, if_pos h, h1]

theorem dateRange_of_gt {s e : ℤ} (h : e < s) : dateRange s e = [] := by
  simp [dateRange]
  omega

theorem init_timesheet_map_date (s e : ℤ) (emp : String) :
    (init_timesheet s e emp).map Row.date = dateRange s e := by
  unfold init_timesheet
  rw [List.map_map]
  exact List.map_id _

end Timesheet


namespace Timesheet

/-! ## Claim theorems -/

/-- C1: after `calculate_totals` every row satisfies
`daily_total = hours_worked * hourly_rate` exactly, and the resulting
Daily Total column is a pure function of the Hours Worked and Hourly Rate
columns of the input. -/
theorem calculate_totals_daily_total (df : List Row) :
    (∀ r ∈ calculate_totals df, r.dailyTotal = r.hoursWorked * r.hourlyRate) ∧
      (calculate_totals df).map Row.dailyTotal
        = df.map (fun r => r.hoursWorked * r.hourlyRate) := by
  constructor
  · intro r hr
    rcases List.mem_map.1 hr with ⟨a, _, rfl⟩
    rfl
  · simp [calculate_totals]

/-- C1 witness: the theorem instantiated at a concrete one-row table. -/
theorem calculate_totals_daily_total_witness :
    (∀ r ∈ calculate_totals (applyEdits (init_timesheet 0 0 "A") [3] [7] ["x"]),
        r.dailyTotal = r.hoursWorked * r.hourlyRate) ∧
      (calculate_totals (applyEdits (init_timesheet 0 0 "A") [3] [7] ["x"])).map
          Row.dailyTotal
        = (applyEdits (init_timesheet 0 0 "A") [3] [7] ["x"]).map
            (fun r => r.hoursWorked * r.hourlyRate) :=
  calculate_totals_daily_total (applyEdits (init_timesheet 0 0 "A") [3] [7] ["x"])

/-- C9: `calculate_totals` modifies only the Daily Total column: the row
count and, in order, the Date, Day, Hours Worked, Hourly Rate,
Tasks Completed, Week, Month and Employee Name columns of the result are
identical to those of the input. -/
theorem calculate_totals_frame (df : List Row) :
    (calculate_totals df).length = df.length ∧
      (calculate_totals df).map Row.date = df.map Row.date ∧
      (calculate_totals df).map Row.day = df.map Row.day ∧
      (calculate_totals df).map Row.hoursWorked = df.map Row.hoursWorked ∧
      (calculate_totals df).map Row.hourlyRate = df.map Row.hourlyRate ∧
      (calculate_totals df).map Row.tasksCompleted = df.map Row.tasksCompleted ∧
      (calculate_totals df).map Row.week = df.map Row.week ∧
      (calculate_totals df).map Row.month = df.map Row.month ∧
      (calculate_totals df).map Row.employeeName = df.map Row.employeeName := by
  simp [calculate_totals]

end Timesheet

namespace Timesheet

/-- C2: for `start_date ≤ end_date`, `init_timesheet` returns exactly
`(end_date − start_date).days + 1` rows — one per calendar day of the
inclusive range, dates strictly ascending hence distinct — with
Hours Worked, Hourly Rate and Daily Total initialised to 0 and
Tasks Completed to the empty string. -/
theorem init_timesheet_range_spec (s e : ℤ) (emp : String) (h : s ≤ e) :
    (init_timesheet s e emp).length = (e - s).toNat + 1 ∧
      (init_timesheet s e emp).map Row.date
        = (List.range ((e - s).toNat + 1)).map (fun i : ℕ => s + (i : ℤ)) ∧
      ((init_timesheet s e emp).map Row.date).Pairwise (· < ·) ∧
      ((init_timesheet s e emp).map Row.date).Nodup ∧
      (∀ d : ℤ, d ∈ (init_timesheet s e emp).map Row.date ↔ s ≤ d ∧ d ≤ e) ∧
      (∀ r ∈ init_timesheet s e emp,
        r.hoursWorked = 0 ∧ r.hourlyRate = 0 ∧ r.dailyTotal = 0 ∧
          r.tasksCompleted = "") := by
  have hdates : (init_timesheet s e emp).map Row.date
      = (List.range ((e - s).toNat + 1)).map (fun i : ℕ => s + (i : ℤ)) := by
    rw [init_timesheet_map_date, dateRange_of_le h]
  have hpw : ((init_timesheet s e emp).map Row.date).Pairwise (· < ·) := by
    rw [hdates]
    refine (List.pairwise_lt_range _).map _ ?_
    intro a b hab
    omega
  refine ⟨?_, hdates, hpw, hpw.imp ne_of_lt, ?_, ?_⟩
  · have := congrArg List.length hdates
    simpa using this
  · intro d
    rw [hdates]
    simp only [List.mem_map, List.mem_range]
    constructor
    · rintro ⟨i, hi, rfl⟩
      omega
    · intro hd
      exact ⟨(d - s).toNat, by omega, by omega⟩
  · intro r hr
    rcases List.mem_map.1 (by simpa [init_timesheet] using hr) with ⟨dd, _, rfl⟩
    exact ⟨rfl, rfl, rfl, rfl⟩

/-- C2 witness: the range 2025-01-01 to 2025-01-03 (three days). -/
theorem init_timesheet_range_spec_witness :
    daysFromCivil 2025 1 1 ≤ daysFromCivil 2025 1 3 ∧
      ((init_timesheet (daysFromCivil 2025 1 1) (daysFromCivil 2025 1 3)
            "Alex").length
          = (daysFromCivil 2025 1 3 - daysFromCivil 2025 1 1).toNat + 1 ∧
        (init_timesheet (daysFromCivil 2025 1 1) (daysFromCivil 2025 1 3)
              "Alex").map Row.date
          = (List.range
                ((daysFromCivil 2025 1 3 - daysFromCivil 2025 1 1).toNat +
                  1)).map
              (fun i : ℕ => daysFromCivil 2025 1 1 + (i : ℤ)) ∧
        ((init_timesheet (daysFromCivil 2025 1 1) (daysFromCivil 2025 1 3)
                "Alex").map Row.date).Pairwise (· < ·) ∧
        ((init_timesheet (daysFromCivil 2025 1 1) (daysFromCivil 2025 1 3)
                "Alex").map Row.date).Nodup ∧
        (∀ d : ℤ,
          d ∈ (init_timesheet (daysFromCivil 2025 1 1)
                  (daysFromCivil 2025 1 3) "Alex").map Row.date ↔
            daysFromCivil 2025 1 1 ≤ d ∧ d ≤ daysFromCivil 2025 1 3) ∧
        (∀ r ∈ init_timesheet (daysFromCivil 2025 1 1)
            (daysFromCivil 2025 1 3) "Alex",
          r.hoursWorked = 0 ∧ r.hourlyRate = 0 ∧ r.dailyTotal = 0 ∧
            r.tasksCompleted = "")) :=
  ⟨by decide,
    init_timesheet_range_spec (daysFromCivil 2025 1 1) (daysFromCivil 2025 1 3)
      "Alex" (by decide)⟩

/-- C5: for `start_date > end_date`, `init_timesheet` returns the empty
timesheet rather than failing, the weekly and monthly summaries over it are
empty, and all four derived metrics over it are zero. -/
theorem init_timesheet_empty_range (s e : ℤ) (emp : String) (h : e < s) :
    init_timesheet s e emp = [] ∧
      summarize_by_week (init_timesheet s e emp) = [] ∧
      summarize_by_month (init_timesheet s e emp) = [] ∧
      total_hours (init_timesheet s e emp) = 0 ∧
      total_earnings (init_timesheet s e emp) = 0 ∧
      avg_hourly_rate (init_timesheet s e emp) = 0 ∧
      days_worked (init_timesheet s e emp) = 0 := by
  have hnil : init_timesheet s e emp = [] := by
    unfold init_timesheet
    rw [dateRange_of_gt h]
    rfl
  rw [hnil]
  refine ⟨rfl, rfl, rfl, rfl, rfl, rfl, rfl⟩

/-- C5 witness: start one day after end. -/
theorem init_timesheet_empty_range_witness :
    (0 : ℤ) < 1 ∧
      (init_timesheet 1 0 "A" = [] ∧
        summarize_by_week (init_timesheet 1 0 "A") = [] ∧
        summarize_by_month (init_timesheet 1 0 "A") = [] ∧
        total_hours (init_timesheet 1 0 "A") = 0 ∧
        total_earnings (init_timesheet 1 0 "A") = 0 ∧
        avg_hourly_rate (init_timesheet 1 0 "A") = 0 ∧
        days_worked (init_timesheet 1 0 "A") = 0) :=
  ⟨by decide, init_timesheet_empty_range 1 0 "A" (by decide)⟩

/-- C7: the derived metrics on the concrete scenario of the spec: range
2025-01-01 to 2025-01-03, hours (8, 6, 0) and rates (20, 25, 0) give total
hours 14, total earnings 310, average hourly rate 22.50 (mean over the rows
with positive rate), days worked 2, and a weekly summary with exactly one
entry (ISO week 1) with hours 14 and earnings 310. -/
theorem derived_metrics_scenario :
    total_hours scenarioTs = 14 ∧
      total_earnings scenarioTs = 310 ∧
      avg_hourly_rate scenarioTs = 45 / 2 ∧
      days_worked scenarioTs = 2 ∧
      summarize_by_week scenarioTs = [(1, 14, 310)] := by
  decide

end Timesheet

namespace Timesheet

/-! ## The code-point order on strings -/

theorem charListLt_nil_right : ∀ l : List Char, charListLt l [] = false
  | [] => rfl
  | _ :: _ => rfl

theorem charListLt_irrefl (l : List Char) : charListLt l l = false := by
  induction l with
  | nil => rfl
  | cons a as ih => simp [charListLt, ih]

theorem charListLt_trans :
    ∀ a b c : List Char, charListLt a b = true → charListLt b c = true →
      charListLt a c = true := by
  intro a
  induction a with
  | nil =>
    intro b c hab hbc
    cases b with
    | nil => simp [charListLt] at hab
    | cons y ys =>
      cases c with
      | nil => rw [charListLt_nil_right] at hbc; cases hbc
      | cons z zs => rfl
  | cons x xs ih =>
    intro b c hab hbc
    cases b with
    | nil => rw [charListLt_nil_right] at hab; cases hab
    | cons y ys =>
      cases c with
      | nil => rw [charListLt_nil_right] at hbc; cases hbc
      | cons z zs =>
        simp only [charListLt] at hab hbc ⊢
        by_cases h1 : x.toNat < y.toNat
        · by_cases h2 : y.toNat < z.toNat
          · have h3 : x.toNat < z.toNat := by omega
            rw [if_pos h3]
          · rw [if_neg h2] at hbc
            by_cases h3 : z.toNat < y.toNat
            · rw [if_pos h3] at hbc; cases hbc
            · have h4 : x.toNat < z.toNat := by omega
              rw [if_pos h4]
        · rw [if_neg h1] at hab
          by_cases h2 : y.toNat < x.toNat
          · rw [if_pos h2] at hab; cases hab
          · rw [if_neg h2] at hab
            by_cases h3 : y.toNat < z.toNat
            · have h4 : x.toNat < z.toNat := by omega
              rw [if_pos h4]
            · rw [if_neg h3] at hbc
              by_cases h4 : z.toNat < y.toNat
              · rw [if_pos h4] at hbc; cases hbc
              · rw [if_neg h4] at hbc
                have h5 : ¬ x.toNat < z.toNat := by omega
                have h6 : ¬ z.toNat < x.toNat := by omega
                rw [if_neg h5, if_neg h6]
                exact ih ys zs hab hbc

theorem charListLt_eq_of_not_lt :
    ∀ a b : List Char, charListLt a b = false → charListLt b a = false →
      a = b
  | [], [], _, _ => rfl
  | [], _ :: _, hab, _ => by rw [charListLt] at hab; cases hab
  | _ :: _, [], _, hba => by rw [charListLt] at hba; cases hba
  | x :: xs, y :: ys, hab, hba => by
    rw [charListLt] at hab hba
    by_cases h1 : x.toNat < y.toNat
    · rw [if_pos h1] at hab; cases hab
    · by_cases h2 : y.toNat < x.toNat
      · rw [if_pos h2] at hba; cases hba
      · rw [if_neg h1, if_neg h2] at hab
        rw [if_neg h2, if_neg h1] at hba
        have hxy : x = y := by
          have h3 : x.toNat = y.toNat := by omega
          unfold Char.toNat at h3
          exact Char.eq_of_val_eq (UInt32.toNat.inj h3)
        rw [hxy, charListLt_eq_of_not_lt xs ys hab hba]

theorem charListLt_asymm {a b : List Char} (h : charListLt a b = true) :
    charListLt b a = false := by
  by_contra hba
  have hba' : charListLt b a = true := by
    revert hba
    cases charListLt b a <;> simp
  have h2 := charListLt_trans a b a h hba'
  rw [charListLt_irrefl] at h2
  cases h2

theorem strLe_total (a b : String) : strLe a b = true ∨ strLe b a = true := by
  unfold strLe strLt
  by_cases h : charListLt b.data a.data = true
  · right
    rw [charListLt_asymm h]
    rfl
  · left
    revert h
    cases charListLt b.data a.data <;> simp

theorem strLe_trans (a b c : String) (h1 : strLe a b = true)
    (h2 : strLe b c = true) : strLe a c = true := by
  unfold strLe strLt at h1 h2 ⊢
  have h1' : charListLt b.data a.data = false := by
    revert h1
    cases charListLt b.data a.data <;> simp
  have h2' : charListLt c.data b.data = false := by
    revert h2
    cases charListLt c.data b.data <;> simp
  have h3 : charListLt c.data a.data = false := by
    by_cases hca : charListLt c.data a.data = true
    · by_cases hbc : charListLt b.data c.data = true
      · have h4 := charListLt_trans b.data c.data a.data hbc hca
        rw [h1'] at h4
        cases h4
      · have hbc' : charListLt b.data c.data = false := by
          revert hbc
          cases charListLt b.data c.data <;> simp
        have h5 : b.data = c.data := charListLt_eq_of_not_lt _ _ hbc' h2'
        rw [← h5] at hca
        rw [h1'] at hca
        cases hca
    · revert hca
      cases charListLt c.data a.data <;> simp
  rw [h3]
  rfl

instance : IsTotal String (fun a b => strLe a b = true) := ⟨strLe_total⟩

instance : IsTrans String (fun a b => strLe a b = true) := ⟨strLe_trans⟩

end Timesheet

namespace Timesheet

/-! ## Grouping facts -/

theorem summarize_by_month_map_fst (rows : List Row) :
    (summarize_by_month rows).map Prod.fst = monthKeys rows := by
  unfold summarize_by_month
  rw [List.map_map]
  exact List.map_id _

theorem summarize_by_week_map_fst (rows : List Row) :
    (summarize_by_week rows).map Prod.fst = weekKeys rows := by
  unfold summarize_by_week
  rw [List.map_map]
  exact List.map_id _

theorem monthKeys_nodup (rows : List Row) : (monthKeys rows).Nodup :=
  ((List.perm_insertionSort _ _).nodup_iff).mpr (List.nodup_dedup _)

theorem weekKeys_nodup (rows : List Row) : (weekKeys rows).Nodup :=
  ((List.perm_insertionSort _ _).nodup_iff).mpr (List.nodup_dedup _)

theorem mem_monthKeys {rows : List Row} {m : String} :
    m ∈ monthKeys rows ↔ m ∈ rows.map Row.month := by
  unfold monthKeys
  rw [List.mem_insertionSort, List.mem_dedup]

theorem mem_weekKeys {rows : List Row} {w : ℤ} :
    w ∈ weekKeys rows ↔ w ∈ rows.map Row.week := by
  unfold weekKeys
  rw [List.mem_insertionSort, List.mem_dedup]

/-- C3 counterexample: on the concrete range 2025-01-25 to 2025-02-05 the
monthly summary is keyed February before January (alphabetical), while the
first calendar occurrence of the months orders January before February; the
claimed ordering does not hold. -/
theorem monthly_summary_order_counterexample :
    (summarize_by_month janFebTs).map Prod.fst = ["February", "January"] ∧
      firstOccurrenceMonthKeys janFebTs = ["January", "February"] ∧
      (summarize_by_month janFebTs).map Prod.fst
        ≠ firstOccurrenceMonthKeys janFebTs := by
  refine ⟨by decide, by decide, by decide⟩

/-- C3 (amended): `summarize_by_month` groups rows by month name and per
group sums `hours_worked` and `daily_total` rounded to 2 decimal places, but
orders its groups alphabetically (ascending in the code-point order on
month-name strings), not by first calendar occurrence. -/
theorem summarize_by_month_spec (rows : List Row) :
    ((summarize_by_month rows).map Prod.fst).Pairwise
        (fun a b => strLe a b = true) ∧
      ((summarize_by_month rows).map Prod.fst).Nodup ∧
      (∀ m, m ∈ (summarize_by_month rows).map Prod.fst ↔
        m ∈ rows.map Row.month) ∧
      ∀ p ∈ summarize_by_month rows,
        p.2.1 = round2 (sumHours (rows.filter fun r => r.month = p.1)) ∧
          p.2.2 = round2 (sumTotals (rows.filter fun r => r.month = p.1)) := by
  rw [summarize_by_month_map_fst]
  refine ⟨List.sorted_insertionSort _ _, monthKeys_nodup rows,
    fun m => mem_monthKeys, ?_⟩
  intro p hp
  rcases List.mem_map.1 hp with ⟨m, _, rfl⟩
  exact ⟨rfl, rfl⟩

/-- C3 witness: the amended theorem instantiated at the January–February
table. -/
theorem summarize_by_month_spec_witness :
    ((summarize_by_month janFebTs).map Prod.fst).Pairwise
        (fun a b => strLe a b = true) ∧
      ((summarize_by_month janFebTs).map Prod.fst).Nodup ∧
      (∀ m, m ∈ (summarize_by_month janFebTs).map Prod.fst ↔
        m ∈ janFebTs.map Row.month) ∧
      ∀ p ∈ summarize_by_month janFebTs,
        p.2.1 = round2 (sumHours (janFebTs.filter fun r => r.month = p.1)) ∧
          p.2.2 = round2 (sumTotals (janFebTs.filter fun r => r.month = p.1)) :=
  summarize_by_month_spec janFebTs

end Timesheet

namespace Timesheet

/-! ## Sums over groups -/

theorem sum_map_filter_add_not {α : Type} (f : α → ℚ) (p : α → Bool)
    (xs : List α) :
    ((xs.filter p).map f).sum + ((xs.filter fun x => !(p x)).map f).sum
      = (xs.map f).sum := by
  induction xs with
  | nil => simp
  | cons x xs ih =>
    by_cases h : p x = true
    · simp only [List.filter_cons, h, Bool.not_true, List.map_cons,
        List.sum_cons]
      simp only [Bool.false_eq_true, if_true, if_false, List.map_cons,
        List.sum_cons]
      rw [← ih]
      ring
    · have h' : p x = false := by
        revert h
        cases p x <;> simp
      simp only [List.filter_cons, h', Bool.not_false, List.map_cons,
        List.sum_cons]
      simp only [Bool.false_eq_true, if_true, if_false, List.map_cons,
        List.sum_cons]
      rw [← ih]
      ring

theorem sum_filter_partition {κ : Type} [DecidableEq κ] (f : Row → ℚ)
    (key : Row → κ) :
    ∀ (ks : List κ) (xs : List Row), ks.Nodup → (∀ x ∈ xs, key x ∈ ks) →
      (ks.map fun k => ((xs.filter fun x => key x = k).map f).sum).sum
        = (xs.map f).sum := by
  intro ks
  induction ks with
  | nil =>
    intro xs _ hcov
    cases xs with
    | nil => rfl
    | cons x xs' => exact absurd (hcov x (List.mem_cons_self x xs')) (by simp)
  | cons k ks ih =>
    intro xs hnd hcov
    rw [List.map_cons, List.sum_cons]
    have hrest : (ks.map fun k' =>
          ((xs.filter fun x => key x = k').map f).sum)
        = ks.map fun k' =>
            (((xs.filter fun x => !(decide (key x = k))).filter
                fun x => key x = k').map f).sum := by
      apply List.map_congr_left
      intro k' hk'
      have hkk : k' ≠ k := by
        rintro rfl
        exact (List.nodup_cons.1 hnd).1 hk'
      have hpq : ∀ x ∈ xs, (decide (key x = k') : Bool)
          = (decide (key x = k') && !(decide (key x = k))) := by
        intro x _
        by_cases hx : key x = k'
        · simp [hx, hkk]
        · simp [hx]
      rw [List.filter_filter, List.filter_congr hpq]
    have hcov' : ∀ x ∈ (xs.filter fun x => !(decide (key x = k))),
        key x ∈ ks := by
      intro x hx
      rcases List.mem_filter.1 hx with ⟨hx1, hx2⟩
      rcases List.mem_cons.1 (hcov x hx1) with heq | hmem
      · rw [heq] at hx2
        simp at hx2
      · exact hmem
    rw [hrest,
      ih (xs.filter fun x => !(decide (key x = k)))
        (List.nodup_cons.1 hnd).2 hcov']
    exact sum_map_filter_add_not f (fun x => decide (key x = k)) xs

/-- C4 counterexample: on `roundingTs` (two ISO weeks, each with earnings
0.125), the weekly summary's rounded per-group earnings sum to 0.24 while the
ungrouped earnings total is 0.25; the conservation law fails after the
per-group rounding to 2 decimal places. -/
theorem weekly_conservation_counterexample :
    ((summarize_by_week roundingTs).map fun p => p.2.2).sum = 6/25 ∧
      total_earnings roundingTs = 1/4 ∧
      ((summarize_by_week roundingTs).map fun p => p.2.2).sum
        ≠ total_earnings roundingTs :=
  ⟨by decide, by decide, by decide⟩

/-- C4 (amended): the per-group sums before rounding, summed across all week
groups, equal the ungrouped totals of `hours_worked` and `daily_total`, and
likewise across all month groups; the weekly groups are ordered by ascending
week number.  (With the 2-decimal rounding that the code applies to each
group, the summed group totals can differ from the ungrouped totals, as the
counterexample shows.) -/
theorem summaries_conservation (rows : List Row) :
    ((weekKeys rows).map fun w =>
        sumHours (rows.filter fun r => r.week = w)).sum = total_hours rows ∧
      ((weekKeys rows).map fun w =>
        sumTotals (rows.filter fun r => r.week = w)).sum
          = total_earnings rows ∧
      ((monthKeys rows).map fun m =>
        sumHours (rows.filter fun r => r.month = m)).sum = total_hours rows ∧
      ((monthKeys rows).map fun m =>
        sumTotals (rows.filter fun r => r.month = m)).sum
          = total_earnings rows ∧
      ((summarize_by_week rows).map Prod.fst).Pairwise (· ≤ ·) := by
  have hwcov : ∀ r ∈ rows, r.week ∈ weekKeys rows := by
    intro r hr
    exact mem_weekKeys.2 (List.mem_map_of_mem Row.week hr)
  have hmcov : ∀ r ∈ rows, r.month ∈ monthKeys rows := by
    intro r hr
    exact mem_monthKeys.2 (List.mem_map_of_mem Row.month hr)
  refine ⟨sum_filter_partition Row.hoursWorked Row.week _ rows
      (weekKeys_nodup rows) hwcov,
    sum_filter_partition Row.dailyTotal Row.week _ rows
      (weekKeys_nodup rows) hwcov,
    sum_filter_partition Row.hoursWorked Row.month _ rows
      (monthKeys_nodup rows) hmcov,
    sum_filter_partition Row.dailyTotal Row.month _ rows
      (monthKeys_nodup rows) hmcov, ?_⟩
  rw [summarize_by_week_map_fst]
  exact List.sorted_insertionSort _ _

end Timesheet

namespace Timesheet

theorem map_filter_fst {γ : Type} (f : ℤ → γ) (fst : γ → ℤ)
    (hf : ∀ k, fst (f k) = k) :
    ∀ ks : List ℤ, ks.Nodup → ∀ w ∈ ks,
      (ks.map f).filter (fun p => fst p = w) = [f w] := by
  intro ks
  induction ks with
  | nil =>
    intro _ w hw
    cases hw
  | cons k ks ih =>
    intro hnd w hw
    rw [List.map_cons, List.filter_cons]
    rcases List.mem_cons.1 hw with rfl | hw'
    · rw [if_pos (by simp [hf])]
      congr 1
      apply List.filter_eq_nil_iff.2
      intro p hp
      rcases List.mem_map.1 hp with ⟨k', hk', rfl⟩
      have hne : k' ≠ w := by
        rintro rfl
        exact (List.nodup_cons.1 hnd).1 hk'
      simpa [hf] using hne
    · have hkw : k ≠ w := by
        rintro rfl
        exact (List.nodup_cons.1 hnd).1 hw'
      rw [if_neg (by simpa [hf] using hkw)]
      exact ih (List.nodup_cons.1 hnd).2 w hw'

/-- C10: the weekly summary is keyed by the ISO week number alone, with no
year component: any week number occurring in the table yields exactly one
group, whose sums range over every row of the table with that week number,
whatever its date or year. -/
theorem summarize_by_week_merges_same_week (rows : List Row) (w : ℤ)
    (hw : w ∈ rows.map Row.week) :
    (summarize_by_week rows).filter (fun p => p.1 = w)
      = [(w, round2 (sumHours (rows.filter fun r => r.week = w)),
          round2 (sumTotals (rows.filter fun r => r.week = w)))] := by
  have hw' : w ∈ weekKeys rows := mem_weekKeys.2 hw
  exact map_filter_fst _ Prod.fst (fun k => rfl) (weekKeys rows)
    (weekKeys_nodup rows) w hw'

/-- C10 witness: two single-day rows one year apart (Mon 2025-01-27 and
Mon 2026-01-26) both carry ISO week number 5 and are merged into the one
week-5 group of the summary, which is its only group. -/
theorem summarize_by_week_merges_same_week_witness :
    (5 ∈ crossYearTs.map Row.week) ∧
      ((summarize_by_week crossYearTs).filter (fun p => p.1 = 5)
        = [(5, round2 (sumHours (crossYearTs.filter fun r => r.week = 5)),
            round2 (sumTotals (crossYearTs.filter fun r => r.week = 5)))]) ∧
      crossYearTs.map Row.week = [5, 5] ∧
      (crossYearTs.map fun r => (civilFromDays r.date).1) = [2025, 2026] ∧
      (summarize_by_week crossYearTs).length = 1 :=
  ⟨by decide, summarize_by_week_merges_same_week crossYearTs 5 (by decide),
    by decide, by decide, by decide⟩

end Timesheet

namespace Timesheet

/-- C6 counterexample: starting from valid hours (8, 6), the presentation
layer supplies hours 30 for the first row — outside the 0–24 bound.  The
core does not reject the cell and does not retain the prior value 8: it
stores 30 and computes a daily total of 600 from it. -/
theorem validation_counterexample :
    c6Prior.map Row.hoursWorked = [8, 6] ∧
      c6After.map Row.hoursWorked = [30, 6] ∧
      ¬ (c6After.map Row.hoursWorked = [8, 6]) ∧
      c6After.map Row.dailyTotal = [600, 150] :=
  ⟨by decide, by decide, by decide, by decide⟩

/-- C6 (amended): the core applies each supplied cell value unconditionally —
a non-numeric or out-of-bound value replaces the prior valid one rather than
being rejected (any rejection happens in the presentation layer's input
widgets) — but the merge-and-recompute pass is a pure per-row map: it
completes for every row, and row `j` of the result depends only on row `j`
of the table and the edited values at position `j`, so one bad cell never
aborts the pass or corrupts any other row. -/
theorem applyEdits_calculate_totals_spec (df : List Row) (hs rs : List ℚ)
    (ns : List String) (hh : hs.length = df.length)
    (hr : rs.length = df.length) (hn : ns.length = df.length) (j : ℕ) :
    (calculate_totals (applyEdits df hs rs ns))[j]?
      = match df[j]?, hs[j]?, rs[j]?, ns[j]? with
        | some r, some h, some rt, some n =>
          some { r with
                 hoursWorked := h
                 hourlyRate := rt
                 tasksCompleted := n
                 dailyTotal := h * rt }
        | _, _, _, _ => none := by
  induction df generalizing hs rs ns j with
  | nil =>
    have h1 : hs = [] := List.length_eq_zero.1 (by simpa using hh)
    have h2 : rs = [] := List.length_eq_zero.1 (by simpa using hr)
    have h3 : ns = [] := List.length_eq_zero.1 (by simpa using hn)
    subst h1
    subst h2
    subst h3
    simp [applyEdits, calculate_totals]
  | cons r df ih =>
    cases hs with
    | nil => simp at hh
    | cons h hs =>
      cases rs with
      | nil => simp at hr
      | cons rt rs =>
        cases ns with
        | nil => simp at hn
        | cons n ns =>
          cases j with
          | zero => simp [applyEdits, calculate_totals, List.zip_cons_cons]
          | succ j =>
            have hrec := ih hs rs ns (by simpa using hh) (by simpa using hr)
              (by simpa using hn) j
            simpa [applyEdits, calculate_totals, List.zip_cons_cons]
              using hrec

/-- C6 witness: the amended theorem at the out-of-bound edit (hours 30) on
the first row of the two-row table. -/
theorem applyEdits_calculate_totals_spec_witness :
    ([(30 : ℚ), 6].length = c6Prior.length) ∧
      ([(20 : ℚ), 25].length = c6Prior.length) ∧
      ((["", ""] : List String).length = c6Prior.length) ∧
      ((calculate_totals (applyEdits c6Prior [30, 6] [20, 25] ["", ""]))[0]?
        = match c6Prior[0]?, [(30 : ℚ), 6][0]?, [(20 : ℚ), 25][0]?,
            (["", ""] : List String)[0]? with
          | some r, some h, some rt, some n =>
            some { r with
                   hoursWorked := h
                   hourlyRate := rt
                   tasksCompleted := n
                   dailyTotal := h * rt }
          | _, _, _, _ => none) :=
  ⟨by decide, by decide, by decide,
    applyEdits_calculate_totals_spec c6Prior [30, 6] [20, 25] ["", ""]
      (by decide) (by decide) (by decide) 0⟩

end Timesheet

namespace Timesheet

/-! ## The calendar conversions are mutually inverse -/

theorem stage_era (z era doe : ℤ) (hera : era = (z + 719468) / 146097)
    (hdoe : doe = z + 719468 - era * 146097) :
    0 ≤ doe ∧ doe ≤ 146096 := by omega

theorem stage_c (doe c dc : ℤ) (hb : 0 ≤ doe ∧ doe ≤ 146096)
    (hc : c = if 3 * 36524 ≤ doe then 3 else doe / 36524)
    (hdc : dc = doe - 36524 * c) :
    0 ≤ c ∧ c ≤ 3 ∧ 0 ≤ dc ∧ dc ≤ 36524 := by
  split_ifs at hc <;> omega

theorem stage_q (dc q dq : ℤ) (hb : 0 ≤ dc ∧ dc ≤ 36524) (hq : q = dc / 1461)
    (hdq : dq = dc - 1461 * q) :
    0 ≤ q ∧ q ≤ 24 ∧ 0 ≤ dq ∧ dq ≤ 1460 := by omega

theorem stage_yq (dq yq doy : ℤ) (hb : 0 ≤ dq ∧ dq ≤ 1460)
    (hyq : yq = if 1095 ≤ dq then 3 else dq / 365)
    (hdoy : doy = dq - 365 * yq) :
    0 ≤ yq ∧ yq ≤ 3 ∧ 0 ≤ doy ∧ doy ≤ 365 := by
  split_ifs at hyq <;> omega

theorem stage_month (doy mp m d : ℤ) (hb : 0 ≤ doy ∧ doy ≤ 365)
    (hmp : mp = (5 * doy + 2) / 153)
    (hm : m = mp + (if mp < 10 then 3 else -9))
    (hd : d = doy - (153 * mp + 2) / 5 + 1) :
    (153 * (m + (if 2 < m then -3 else 9)) + 2) / 5 + d - 1 = doy ∧
      (if m ≤ 2 then (1 : ℤ) else 0) = (if mp < 10 then 0 else 1) ∧
      0 ≤ mp ∧ mp ≤ 11 ∧ 1 ≤ m ∧ m ≤ 12 ∧ 1 ≤ d ∧ d ≤ 31 := by
  have hmpb : 0 ≤ mp ∧ mp ≤ 11 := by omega
  by_cases h10 : mp < 10
  · rw [if_pos h10] at hm
    have h2m : 2 < m := by omega
    have hnle : ¬ m ≤ 2 := by omega
    rw [if_pos h2m, if_neg hnle, if_pos h10]
    have e1 : m + -3 = mp := by omega
    rw [e1]
    refine ⟨by omega, rfl, hmpb.1, hmpb.2, by omega, by omega, by omega,
      by omega⟩
  · rw [if_neg h10] at hm
    have hle : m ≤ 2 := by omega
    have hn2m : ¬ 2 < m := by omega
    rw [if_neg hn2m, if_pos hle, if_neg h10]
    have e1 : m + 9 = mp := by omega
    rw [e1]
    refine ⟨by omega, rfl, hmpb.1, hmpb.2, by omega, by omega, by omega,
      by omega⟩

theorem stage_year (era yoe : ℤ) (hb : 0 ≤ yoe ∧ yoe ≤ 399) :
    (yoe + era * 400) / 400 = era := by omega

theorem stage_div4 (c q yq yoe : ℤ) (_hcb : 0 ≤ c ∧ c ≤ 3)
    (hqb : 0 ≤ q ∧ q ≤ 24) (hyqb : 0 ≤ yq ∧ yq ≤ 3)
    (hyoe : yoe = c * 100 + q * 4 + yq) :
    yoe / 4 = c * 25 + q ∧ yoe / 100 = c := by omega

theorem comp_core (z era doe c dc q dq yq doy yoe mp m d y : ℤ)
    (hera : era = (z + 719468) / 146097)
    (hdoe : doe = z + 719468 - era * 146097)
    (hc : c = if 3 * 36524 ≤ doe then 3 else doe / 36524)
    (hdc : dc = doe - 36524 * c)
    (hq : q = dc / 1461)
    (hdq : dq = dc - 1461 * q)
    (hyq : yq = if 1095 ≤ dq then 3 else dq / 365)
    (hdoy : doy = dq - 365 * yq)
    (hyoe : yoe = c * 100 + q * 4 + yq)
    (hmp : mp = (5 * doy + 2) / 153)
    (hm : m = mp + (if mp < 10 then 3 else -9))
    (hd : d = doy - (153 * mp + 2) / 5 + 1)
    (hy : y = yoe + era * 400 + (if m ≤ 2 then 1 else 0)) :
    daysFromCivil y m d = z := by
  have hb1 := stage_era z era doe hera hdoe
  have hb2 := stage_c doe c dc hb1 hc hdc
  have hb3 := stage_q dc q dq ⟨hb2.2.2.1, hb2.2.2.2⟩ hq hdq
  have hb4 := stage_yq dq yq doy ⟨hb3.2.2.1, hb3.2.2.2⟩ hyq hdoy
  have hb5 : 0 ≤ yoe ∧ yoe ≤ 399 := by omega
  have hmn := stage_month doy mp m d ⟨hb4.2.2.1, hb4.2.2.2⟩ hmp hm hd
  have hd4 := stage_div4 c q yq yoe ⟨hb2.1, hb2.2.1⟩ ⟨hb3.1, hb3.2.1⟩
    ⟨hb4.1, hb4.2.1⟩ hyoe
  unfold daysFromCivil
  simp only
  rw [hmn.1, hmn.2.1]
  rw [hmn.2.1] at hy
  by_cases h10 : mp < 10
  · rw [if_pos h10] at hy ⊢
    have hyy : y - 0 = yoe + era * 400 := by omega
    rw [hyy, stage_year era yoe hb5]
    rw [(by ring : yoe + era * 400 - era * 400 = yoe)]
    rw [hd4.1, hd4.2]
    omega
  · rw [if_neg h10] at hy ⊢
    have hyy : y - 1 = yoe + era * 400 := by omega
    rw [hyy, stage_year era yoe hb5]
    rw [(by ring : yoe + era * 400 - era * 400 = yoe)]
    rw [hd4.1, hd4.2]
    omega

/-- Converting a day ordinal to a civil date and back is the identity. -/
theorem daysFromCivil_civilFromDays (z : ℤ) :
    daysFromCivil (civilFromDays z).1 (civilFromDays z).2.1
      (civilFromDays z).2.2 = z :=
  comp_core z _ _ _ _ _ _ _ _ _ _ _ _ _ rfl rfl rfl rfl rfl rfl rfl rfl rfl
    rfl rfl rfl rfl

theorem civil_bounds (z : ℤ) :
    1 ≤ (civilFromDays z).2.1 ∧ (civilFromDays z).2.1 ≤ 12 ∧
      1 ≤ (civilFromDays z).2.2 ∧ (civilFromDays z).2.2 ≤ 31 := by
  have hb1 := stage_era z _ _ rfl rfl
  have hb2 := stage_c _ _ _ hb1 rfl rfl
  have hb3 := stage_q _ _ _ ⟨hb2.2.2.1, hb2.2.2.2⟩ rfl rfl
  have hb4 := stage_yq _ _ _ ⟨hb3.2.2.1, hb3.2.2.2⟩ rfl rfl
  have hmn := stage_month _ _ _ _ ⟨hb4.2.2.1, hb4.2.2.2⟩ rfl rfl rfl
  exact ⟨hmn.2.2.2.2.1, hmn.2.2.2.2.2.1, hmn.2.2.2.2.2.2.1,
    hmn.2.2.2.2.2.2.2⟩

end Timesheet

namespace Timesheet

/-! ## Decimal rendering round-trips -/

theorem parseNat_go (l : List Char) :
    ∀ acc : ℕ,
      l.foldl (fun acc c => 10 * acc + charToDigit c) acc
        = acc * 10 ^ l.length + parseNat l := by
  induction l with
  | nil =>
    intro acc
    simp [parseNat]
  | cons c cs ih =>
    intro acc
    rw [List.foldl_cons, ih (10 * acc + charToDigit c)]
    unfold parseNat
    rw [List.foldl_cons, ih (10 * 0 + charToDigit c)]
    have hp : List.foldl (fun acc c => 10 * acc + charToDigit c) 0 cs
        = parseNat cs := rfl
    rw [hp]
    simp only [List.length_cons, pow_succ]
    ring

theorem parseNat_append (a b : List Char) :
    parseNat (a ++ b) = parseNat a * 10 ^ b.length + parseNat b := by
  unfold parseNat
  rw [List.foldl_append]
  exact parseNat_go b _

theorem charToDigit_digitChar (d : ℕ) (h : d < 10) :
    charToDigit (digitChar d) = d := by
  interval_cases d <;> rfl

theorem isDigitChar_digitChar (d : ℕ) (h : d < 10) :
    isDigitChar (digitChar d) = true := by
  interval_cases d <;> rfl

theorem parseNat_single (d : ℕ) (h : d < 10) :
    parseNat [digitChar d] = d := by
  unfold parseNat
  rw [List.foldl_cons, List.foldl_nil, charToDigit_digitChar d h]
  omega

theorem natDigitsAux_spec :
    ∀ fuel n : ℕ, n < fuel →
      parseNat (natDigitsAux fuel n) = n ∧
        (natDigitsAux fuel n).all isDigitChar = true ∧
        natDigitsAux fuel n ≠ [] := by
  intro fuel
  induction fuel with
  | zero =>
    intro n h
    omega
  | succ fuel ih =>
    intro n h
    unfold natDigitsAux
    by_cases h10 : n < 10
    · rw [if_pos h10]
      exact ⟨parseNat_single n h10, by simp [isDigitChar_digitChar n h10],
        by simp⟩
    · rw [if_neg h10]
      have hn : n / 10 < fuel := by omega
      obtain ⟨ih1, ih2, ih3⟩ := ih (n / 10) hn
      refine ⟨?_, ?_, by simp⟩
      · rw [parseNat_append, ih1, parseNat_single _ (by omega : n % 10 < 10)]
        simp only [List.length_cons, List.length_nil, pow_succ, pow_zero,
          one_mul]
        omega
      · rw [List.all_append, ih2]
        simp [isDigitChar_digitChar _ (by omega : n % 10 < 10)]

theorem natDigits_spec (n : ℕ) :
    parseNat (natDigits n) = n ∧ (natDigits n).all isDigitChar = true ∧
      natDigits n ≠ [] :=
  natDigitsAux_spec (n + 1) n (Nat.lt_succ_self n)

theorem natDigitsAux_length :
    ∀ fuel n k : ℕ, n < 10 ^ k → 1 ≤ k →
      (natDigitsAux fuel n).length ≤ k := by
  intro fuel
  induction fuel with
  | zero =>
    intro n k _ _
    simp [natDigitsAux]
  | succ fuel ih =>
    intro n k hn hk
    unfold natDigitsAux
    by_cases h10 : n < 10
    · rw [if_pos h10]
      simpa using hk
    · rw [if_neg h10]
      have hk2 : 2 ≤ k := by
        by_contra hcon
        have hk1 : k = 1 := by omega
        rw [hk1] at hn
        simp at hn
        omega
      have hdiv : n / 10 < 10 ^ (k - 1) := by
        have h1 : 10 ^ k = 10 * 10 ^ (k - 1) := by
          rw [← pow_succ']
          congr 1
          omega
        rw [h1] at hn
        exact Nat.div_lt_of_lt_mul hn
      have := ih (n / 10) (k - 1) hdiv (by omega)
      rw [List.length_append]
      simp only [List.length_cons, List.length_nil]
      omega

theorem charToDigit_zero : charToDigit '0' = 0 := rfl

theorem parseNat_replicate_zero :
    ∀ (j : ℕ) (l : List Char),
      parseNat (List.replicate j '0' ++ l) = parseNat l := by
  intro j
  induction j with
  | zero =>
    intro l
    rfl
  | succ j ih =>
    intro l
    rw [List.replicate_succ, List.cons_append]
    unfold parseNat
    rw [List.foldl_cons]
    have hstep : 10 * 0 + charToDigit '0' = 0 := rfl
    rw [hstep]
    exact ih l

theorem padZeros_parseNat (k : ℕ) (l : List Char) :
    parseNat (padZeros k l) = parseNat l :=
  parseNat_replicate_zero _ l

theorem padZeros_length (k : ℕ) (l : List Char) (h : l.length ≤ k) :
    (padZeros k l).length = k := by
  unfold padZeros
  rw [List.length_append, List.length_replicate]
  omega

theorem padZeros_all (k : ℕ) (l : List Char)
    (h : l.all isDigitChar = true) :
    (padZeros k l).all isDigitChar = true := by
  unfold padZeros
  rw [List.all_append, h]
  simp [List.all_eq_true]
  exact Or.inr rfl

theorem padZeros_ne_nil (k : ℕ) (l : List Char) (h : l ≠ []) :
    padZeros k l ≠ [] := by
  unfold padZeros
  intro hcon
  rcases List.append_eq_nil.1 hcon with ⟨_, h2⟩
  exact h h2

end Timesheet

namespace Timesheet

theorem splitOn1_append (sep : Char) (a b : List Char)
    (h : ∀ c ∈ a, c ≠ sep) :
    splitOn1 sep (a ++ sep :: b) = some (a, b) := by
  induction a with
  | nil =>
    simp [splitOn1]
  | cons c cs ih =>
    rw [List.cons_append]
    simp only [splitOn1]
    rw [if_neg (h c (List.mem_cons_self c cs)),
      ih fun x hx => h x (List.mem_cons_of_mem c hx)]

theorem digit_ne_of_not_digit {c sep : Char} (hc : isDigitChar c = true)
    (hsep : isDigitChar sep = false) : c ≠ sep := by
  intro hcon
  rw [hcon, hsep] at hc
  cases hc

theorem all_digits_ne {l : List Char} {sep : Char}
    (h : l.all isDigitChar = true) (hsep : isDigitChar sep = false) :
    ∀ c ∈ l, c ≠ sep := by
  intro c hc
  exact digit_ne_of_not_digit (List.all_eq_true.1 h c hc) hsep

theorem decExpAux_den :
    ∀ (fuel : ℕ) (q : ℚ) (k0 k : ℕ), decExpAux fuel q k0 = some k →
      (q * ((pow10 k : ℕ) : ℚ)).den = 1 := by
  intro fuel
  induction fuel with
  | zero =>
    intro q k0 k h
    cases h
  | succ fuel ih =>
    intro q k0 k h
    unfold decExpAux at h
    by_cases hden : (q * ((pow10 k0 : ℕ) : ℚ)).den = 1
    · rw [if_pos hden] at h
      cases h
      exact hden
    · rw [if_neg hden] at h
      exact ih q (k0 + 1) k h

theorem rat_eq_num_of_den_one {x : ℚ} (h : x.den = 1) : ((x.num : ℚ)) = x := by
  have h2 := Rat.num_div_den x
  rw [h] at h2
  simpa using h2

theorem rat_nonneg_num_toNat {x : ℚ} (h : 0 ≤ x) (hden : x.den = 1) :
    ((x.num.toNat : ℚ)) = x := by
  have h1 : (0 : ℤ) ≤ x.num := Rat.num_nonneg.2 h
  have h2 : ((x.num.toNat : ℤ)) = x.num := Int.toNat_of_nonneg h1
  have h3 : ((x.num.toNat : ℚ)) = ((x.num : ℚ)) := by exact_mod_cast h2
  rw [h3]
  exact rat_eq_num_of_den_one hden

theorem parseQ_renderQ (q : ℚ) (hq : 0 ≤ q) (h : (decExp q).isSome = true) :
    parseQ (renderQ q) = some q := by
  obtain ⟨k, hk⟩ := Option.isSome_iff_exists.1 h
  have hden := decExpAux_den 40 q 0 k hk
  obtain ⟨hd1, hd2, hd3⟩ := natDigits_spec (q.num.toNat)
  cases k with
  | zero =>
    have hden1 : q.den = 1 := by
      have hp : ((pow10 0 : ℕ) : ℚ) = 1 := by
        unfold pow10
        norm_num
      rw [hp, mul_one] at hden
      exact hden
    have hsplit : splitOn1 '.' (natDigits q.num.toNat ++ ['.', '0'])
        = some (natDigits q.num.toNat, ['0']) := by
      have h2 := splitOn1_append '.' (natDigits q.num.toNat) ['0']
        (all_digits_ne hd2 rfl)
      simpa using h2
    simp only [renderQ, hk]
    simp only [parseQ, hsplit]
    rw [if_pos ⟨hd3, by simp, hd2, by rfl⟩]
    congr 1
    rw [hd1]
    have h0 : parseNat ['0'] = 0 := rfl
    rw [h0]
    simp only [Nat.cast_zero, zero_div, add_zero]
    exact rat_nonneg_num_toNat hq hden1
  | succ k =>
    set P : ℚ := ((pow10 (k + 1) : ℕ) : ℚ) with hP
    set n : ℕ := (q * P).num.toNat with hn
    have hPpos : (0 : ℚ) < P := by
      rw [hP]
      unfold pow10
      positivity
    have hne : P ≠ 0 := ne_of_gt hPpos
    have hqP : ((n : ℚ)) = q * P :=
      rat_nonneg_num_toNat (mul_nonneg hq (le_of_lt hPpos)) hden
    obtain ⟨ha1, ha2, ha3⟩ := natDigits_spec (n / pow10 (k + 1))
    obtain ⟨hb1, hb2, hb3⟩ := natDigits_spec (n % pow10 (k + 1))
    have hp10 : 0 < pow10 (k + 1) := by
      unfold pow10
      positivity
    have hmodlt : n % pow10 (k + 1) < 10 ^ (k + 1) := Nat.mod_lt _ hp10
    have hblen : (natDigits (n % pow10 (k + 1))).length ≤ k + 1 :=
      natDigitsAux_length _ _ _ hmodlt (by omega)
    have hBlen : (padZeros (k + 1) (natDigits (n % pow10 (k + 1)))).length
        = k + 1 := padZeros_length _ _ hblen
    have hsplit : splitOn1 '.'
        (natDigits (n / pow10 (k + 1)) ++
          '.' :: padZeros (k + 1) (natDigits (n % pow10 (k + 1))))
        = some (natDigits (n / pow10 (k + 1)),
            padZeros (k + 1) (natDigits (n % pow10 (k + 1)))) :=
      splitOn1_append '.' _ _ (all_digits_ne ha2 rfl)
    simp only [renderQ, hk]
    simp only [parseQ, hsplit]
    rw [if_pos ⟨ha3, padZeros_ne_nil _ _ hb3, ha2, padZeros_all _ _ hb2⟩]
    congr 1
    rw [padZeros_parseNat, ha1, hb1, hBlen]
    have hnat : pow10 (k + 1) * (n / pow10 (k + 1)) + n % pow10 (k + 1)
        = n := Nat.div_add_mod n _
    have hsum : P * ((n / pow10 (k + 1) : ℕ) : ℚ)
        + ((n % pow10 (k + 1) : ℕ) : ℚ) = ((n : ℚ)) := by
      rw [hP]
      exact_mod_cast congrArg (fun t : ℕ => (t : ℚ)) hnat
    have hmain : (((n / pow10 (k + 1) : ℕ) : ℚ)
        + ((n % pow10 (k + 1) : ℕ) : ℚ) / P) * P = q * P := by
      rw [add_mul, div_mul_cancel₀ _ hne,
        mul_comm (((n / pow10 (k + 1) : ℕ)) : ℚ) P, hsum, hqP]
    exact mul_right_cancel₀ hne hmain

end Timesheet

namespace Timesheet

theorem civil_year_pos (z : ℤ) (hz : 0 ≤ z) : 1 ≤ (civilFromDays z).1 := by
  unfold civilFromDays
  simp only
  split_ifs <;> omega

theorem parseDate_renderDate (z : ℤ) (hz : 0 ≤ z) :
    parseDate (renderDate z) = some z := by
  have hy1 : 1 ≤ (civilFromDays z).1 := civil_year_pos z hz
  have hb := civil_bounds z
  have hy0 : (0 : ℤ) ≤ (civilFromDays z).1 := by omega
  have hm0 : (0 : ℤ) ≤ (civilFromDays z).2.1 := by omega
  have hd0 : (0 : ℤ) ≤ (civilFromDays z).2.2 := by omega
  obtain ⟨hy1', hy2', hy3'⟩ := natDigits_spec (civilFromDays z).1.toNat
  obtain ⟨hm1', hm2', hm3'⟩ := natDigits_spec (civilFromDays z).2.1.toNat
  obtain ⟨hd1', hd2', hd3'⟩ := natDigits_spec (civilFromDays z).2.2.toNat
  have hsplit1 : splitOn1 '-'
      (padZeros 4 (natDigits (civilFromDays z).1.toNat) ++
        '-' :: (padZeros 2 (natDigits (civilFromDays z).2.1.toNat) ++
          '-' :: padZeros 2 (natDigits (civilFromDays z).2.2.toNat)))
      = some (padZeros 4 (natDigits (civilFromDays z).1.toNat),
          padZeros 2 (natDigits (civilFromDays z).2.1.toNat) ++
            '-' :: padZeros 2 (natDigits (civilFromDays z).2.2.toNat)) :=
    splitOn1_append '-' _ _ (all_digits_ne (padZeros_all _ _ hy2') rfl)
  have hsplit2 : splitOn1 '-'
      (padZeros 2 (natDigits (civilFromDays z).2.1.toNat) ++
        '-' :: padZeros 2 (natDigits (civilFromDays z).2.2.toNat))
      = some (padZeros 2 (natDigits (civilFromDays z).2.1.toNat),
          padZeros 2 (natDigits (civilFromDays z).2.2.toNat)) :=
    splitOn1_append '-' _ _ (all_digits_ne (padZeros_all _ _ hm2') rfl)
  simp only [renderDate, parseDate, hsplit1, hsplit2]
  rw [if_pos ⟨padZeros_ne_nil _ _ hy3', padZeros_ne_nil _ _ hm3',
    padZeros_ne_nil _ _ hd3', padZeros_all _ _ hy2', padZeros_all _ _ hm2',
    padZeros_all _ _ hd2'⟩]
  congr 1
  rw [padZeros_parseNat, padZeros_parseNat, padZeros_parseNat, hy1', hm1',
    hd1']
  have hcy : (((civilFromDays z).1.toNat : ℤ)) = (civilFromDays z).1 :=
    Int.toNat_of_nonneg hy0
  have hcm : (((civilFromDays z).2.1.toNat : ℤ)) = (civilFromDays z).2.1 :=
    Int.toNat_of_nonneg hm0
  have hcd : (((civilFromDays z).2.2.toNat : ℤ)) = (civilFromDays z).2.2 :=
    Int.toNat_of_nonneg hd0
  rw [hcy, hcm, hcd]
  exact daysFromCivil_civilFromDays z

end Timesheet

namespace Timesheet

theorem data_asString (s : String) : s.data.asString = s := rfl

theorem revrev_asString (s : String) :
    s.data.reverse.reverse.asString = s := by
  rw [List.reverse_reverse]
  exact data_asString s

theorem not_special_facts {c : Char} (h : isCsvSpecial c = false) :
    ¬ (c = ',') ∧ ¬ (c = '\n') ∧ ¬ (c = '"') := by
  unfold isCsvSpecial at h
  simp only [decide_eq_false_iff_not] at h
  push_neg at h
  exact ⟨h.1, h.2.2.1, h.2.1⟩

theorem escapeQuotes_quote (cs : List Char) :
    escapeQuotes ('"' :: cs) = '"' :: '"' :: escapeQuotes cs := by
  simp [escapeQuotes]

theorem escapeQuotes_other {c : Char} (hc : ¬ (c = '"')) (cs : List Char) :
    escapeQuotes (c :: cs) = c :: escapeQuotes cs := by
  simp [escapeQuotes, hc]

theorem csvUnq_cons_comma (cs facc : List Char) (racc : List String)
    (rows : List (List String)) :
    csvUnq (',' :: cs) facc racc rows
      = csvUnq cs [] (facc.reverse.asString :: racc) rows := by
  simp [csvUnq]

theorem csvUnq_cons_newline (cs facc : List Char) (racc : List String)
    (rows : List (List String)) :
    csvUnq ('\n' :: cs) facc racc rows
      = csvUnq cs [] [] ((facc.reverse.asString :: racc).reverse :: rows) := by
  simp [csvUnq]

theorem csvUnq_cons_quote (cs : List Char) (racc : List String)
    (rows : List (List String)) :
    csvUnq ('"' :: cs) [] racc rows = csvQuoted cs [] racc rows := by
  simp [csvUnq]

theorem csvUnq_cons_other {c : Char} {facc : List Char} (hc1 : ¬ (c = ','))
    (hc2 : ¬ (c = '\n')) (hc3 : ¬ (c = '"' ∧ facc = [])) (cs : List Char)
    (racc : List String) (rows : List (List String)) :
    csvUnq (c :: cs) facc racc rows = csvUnq cs (c :: facc) racc rows := by
  simp [csvUnq, hc1, hc2, hc3]

theorem csvQuoted_cons_other {c : Char} (hc : ¬ (c = '"'))
    (cs facc : List Char) (racc : List String)
    (rows : List (List String)) :
    csvQuoted (c :: cs) facc racc rows
      = csvQuoted cs (c :: facc) racc rows := by
  rw [csvQuoted.eq_def]
  simp [hc]

theorem csvQuoted_cons_qq (cs facc : List Char) (racc : List String)
    (rows : List (List String)) :
    csvQuoted ('"' :: '"' :: cs) facc racc rows
      = csvQuoted cs ('"' :: facc) racc rows := by
  simp [csvQuoted]

theorem csvQuoted_cons_close {c2 : Char} (hc2 : ¬ (c2 = '"'))
    (cs2 facc : List Char) (racc : List String)
    (rows : List (List String)) :
    csvQuoted ('"' :: c2 :: cs2) facc racc rows
      = csvUnq (c2 :: cs2) facc racc rows := by
  simp [csvQuoted, hc2]

theorem csvUnq_notspecial :
    ∀ l : List Char, (∀ c ∈ l, isCsvSpecial c = false) →
      ∀ (rest facc : List Char) (racc : List String)
        (rows : List (List String)),
        csvUnq (l ++ rest) facc racc rows
          = csvUnq rest (l.reverse ++ facc) racc rows := by
  intro l
  induction l with
  | nil =>
    intro _ rest facc racc rows
    simp
  | cons c cs ih =>
    intro hl rest facc racc rows
    obtain ⟨h1, h2, h3⟩ := not_special_facts (hl c (List.mem_cons_self c cs))
    rw [List.cons_append,
      csvUnq_cons_other h1 h2 (fun hcon => h3 hcon.1) _ racc rows,
      ih (fun x hx => hl x (List.mem_cons_of_mem c hx)) rest (c :: facc)]
    simp [List.append_assoc]

theorem csvQuoted_escape :
    ∀ (l rest facc : List Char) (racc : List String)
      (rows : List (List String)),
      csvQuoted (escapeQuotes l ++ rest) facc racc rows
        = csvQuoted rest (l.reverse ++ facc) racc rows := by
  intro l
  induction l with
  | nil =>
    intro rest facc racc rows
    simp [escapeQuotes]
  | cons c cs ih =>
    intro rest facc racc rows
    by_cases hc : c = '"'
    · subst hc
      rw [escapeQuotes_quote, List.cons_append, List.cons_append,
        csvQuoted_cons_qq, ih rest ('"' :: facc)]
      simp [List.append_assoc]
    · rw [escapeQuotes_other hc, List.cons_append,
        csvQuoted_cons_other hc _ _ racc rows, ih rest (c :: facc)]
      simp [List.append_assoc]

theorem csvUnq_encodeField (f : String) (c' : Char) (rest : List Char)
    (hc' : c' = ',' ∨ c' = '\n') (racc : List String)
    (rows : List (List String)) :
    csvUnq (encodeField f ++ c' :: rest) [] racc rows
      = csvUnq (c' :: rest) f.data.reverse racc rows := by
  have hne : ¬ (c' = '"') := by
    rcases hc' with rfl | rfl <;> decide
  unfold encodeField
  by_cases hspec : f.data.any isCsvSpecial = true
  · rw [if_pos hspec]
    rw [List.cons_append, List.append_assoc, List.singleton_append,
      csvUnq_cons_quote, csvQuoted_escape, csvQuoted_cons_close hne,
      List.append_nil]
  · rw [if_neg hspec]
    have hall : ∀ c ∈ f.data, isCsvSpecial c = false := by
      intro c hc
      by_contra hcon
      refine hspec (List.any_eq_true.2 ⟨c, hc, ?_⟩)
      revert hcon
      cases isCsvSpecial c <;> simp
    rw [csvUnq_notspecial f.data hall, List.append_nil]

theorem csvUnq_encodeLine :
    ∀ fs : List String, fs ≠ [] →
      ∀ (rest : List Char) (racc : List String)
        (rows : List (List String)),
        csvUnq (encodeLine fs ++ '\n' :: rest) [] racc rows
          = csvUnq rest [] [] ((racc.reverse ++ fs) :: rows) := by
  intro fs
  induction fs with
  | nil =>
    intro h
    exact absurd rfl h
  | cons f fs ih =>
    intro _ rest racc rows
    cases fs with
    | nil =>
      simp only [encodeLine]
      rw [csvUnq_encodeField f '\n' rest (Or.inr rfl),
        csvUnq_cons_newline, revrev_asString]
      simp
    | cons f2 fs2 =>
      simp only [encodeLine]
      rw [List.append_assoc, List.cons_append,
        csvUnq_encodeField f ',' _ (Or.inl rfl), csvUnq_cons_comma,
        revrev_asString, ih (by simp) rest (f :: racc) rows]
      simp [List.append_assoc]

theorem csvUnq_lines :
    ∀ lns : List (List String), (∀ l ∈ lns, l ≠ []) →
      ∀ rows : List (List String),
        csvUnq ((lns.map fun fs => encodeLine fs ++ ['\n']).flatten) [] []
            rows
          = rows.reverse ++ lns := by
  intro lns
  induction lns with
  | nil =>
    intro _ rows
    simp [csvUnq]
  | cons fs lns ih =>
    intro h rows
    simp only [List.map_cons, List.flatten_cons]
    rw [List.append_assoc, List.singleton_append,
      csvUnq_encodeLine fs (h fs (by simp)) _ [] rows,
      List.reverse_nil, List.nil_append,
      ih (fun l hl => h l (by simp [hl])) (fs :: rows)]
    simp

theorem asString_data (l : List Char) : l.asString.data = l := rfl

/-- Parsing the CSV export recovers the header line and one field row per
table row. -/
theorem csvParse_export_csv (rows : List Row) :
    csvParse (export_csv rows) = csvHeader :: rows.map rowFields := by
  unfold csvParse export_csv
  rw [asString_data, csvUnq_lines _ ?_ []]
  · simp
  · intro l hl
    rcases List.mem_cons.1 hl with rfl | hmem
    · simp [csvHeader]
    · rcases List.mem_map.1 hmem with ⟨r, _, rfl⟩
      simp [rowFields]

end Timesheet

namespace Timesheet

theorem parseRowTuple_rowFields (r : Row) (h : RowRenderable r) :
    parseRowTuple (rowFields r)
      = some (r.date, r.day, r.hoursWorked, r.hourlyRate, r.dailyTotal,
          r.tasksCompleted) := by
  obtain ⟨hd, hh, hr, ht, eh, er, et⟩ := h
  simp only [parseRowTuple, rowFields, asString_data,
    parseDate_renderDate r.date hd, parseQ_renderQ r.hoursWorked hh eh,
    parseQ_renderQ r.hourlyRate hr er, parseQ_renderQ r.dailyTotal ht et]

/-- C8: `export_csv` serializes exactly the daily table — a header line
followed by one comma-separated line per data row, with no summary data —
and parsing that text back recovers, for every source row, the same
`(date, weekday_name, hours_worked, hourly_rate, daily_total, tasks_note)`
tuple.  The renderability hypothesis is the claim's "modulo numeric
formatting precision" proviso: each numeric cell is a nonnegative
terminating decimal (so the float64 CSV rendering is exact) and the date is
on or after the epoch. -/
theorem export_csv_roundtrip (rows : List Row)
    (hren : ∀ r ∈ rows, RowRenderable r) :
    csvParse (export_csv rows) = csvHeader :: rows.map rowFields ∧
      (csvParse (export_csv rows)).tail.map parseRowTuple
        = rows.map (fun r => some (r.date, r.day, r.hoursWorked,
            r.hourlyRate, r.dailyTotal, r.tasksCompleted)) := by
  refine ⟨csvParse_export_csv rows, ?_⟩
  rw [csvParse_export_csv rows]
  simp only [List.tail_cons, List.map_map]
  refine List.map_congr_left fun r hr => ?_
  simp only [Function.comp_apply]
  exact parseRowTuple_rowFields r (hren r hr)

theorem export_csv_roundtrip_witness :
    csvParse (export_csv scenarioTs)
        = csvHeader :: scenarioTs.map rowFields ∧
      (csvParse (export_csv scenarioTs)).tail.map parseRowTuple
        = scenarioTs.map (fun r => some (r.date, r.day, r.hoursWorked,
            r.hourlyRate, r.dailyTotal, r.tasksCompleted)) :=
  export_csv_roundtrip scenarioTs (by decide)

end Timesheet
